import Mathlib

/-!
Verification of the training-orchestration core of `src/cifar/main_cifar.py`
(LST-Net CIFAR training script).

The Python functions are shallowly embedded over exact rationals:

* `AverageMeter` (lines 339-354): the streaming metric accumulator; the
  division `self.sum / self.count` raises `ZeroDivisionError` in Python when
  `count` is zero, so `update` returns an `Option`.
* `adjust_learning_rate` (lines 362-372): the piecewise learning-rate
  schedule, as a pure function of `(base_lr, epoch)`.
* the per-epoch best-checkpoint bookkeeping of `main` (lines 204-214);
* the checkpoint record written by `main` (lines 208-214) and the resume
  logic (lines 128-139);
* `save_checkpoint` (lines 325-336) over a file-system model
  `String → Option Nat` whose keys are file names inside the output
  directory (the `os.path.join(output_dir, ·)` prefix is fixed); the
  unbounded `while True` loop is embedded with explicit fuel, returning
  `none` when the fuel runs out, so non-termination of the Python loop shows
  up as `none` for every fuel value;
* `accuracy` (lines 374-388): top-k accuracy; `torch.Tensor.topk` raises
  when `k` exceeds the size of the selected dimension and the shape of
  `target` must match the batch dimension of `output`, so the embedding
  returns `none` in those cases.
-/

namespace MainCifar

/-- State of the `AverageMeter` class (`main_cifar.py` lines 339-354):
fields `val`, `sum`, `count`, `avg`, all numeric. -/
structure AverageMeter where
  val : ℚ
  sum : ℚ
  count : ℚ
  avg : ℚ
  deriving DecidableEq

/-- Method `AverageMeter.reset` (lines 344-348): zeroes the four fields; also the
state produced by `__init__`. -/
def AverageMeter.reset : AverageMeter :=
  { val := 0, sum := 0, count := 0, avg := 0 }

/-- Method `AverageMeter.update` (lines 350-354): `val = v`, `sum += v * n`,
`count += n`, `avg = sum / count`.  The final division raises
`ZeroDivisionError` in Python when the new `count` is zero, hence the
`Option`. -/
def AverageMeter.update (m : AverageMeter) (v n : ℚ) : Option AverageMeter :=
  let s := m.sum + v * n
  let c := m.count + n
  if c = 0 then none
  else some { val := v, sum := s, count := c, avg := s / c }

/-- A finite sequence of `update` calls, failing as soon as one call
raises. -/
def applyUpdates (m : AverageMeter) (us : List (ℚ × ℚ)) : Option AverageMeter :=
  us.foldlM (fun s u => s.update u.1 u.2) m

theorem update_some_count {m m' : AverageMeter} {v n : ℚ}
    (h : m.update v n = some m') : m'.count ≠ 0 := by
  unfold AverageMeter.update at h
  by_cases hc : m.count + n = 0
  · simp [hc] at h
  · simp only [hc, if_neg, if_false] at h
    cases h
    exact hc

theorem update_some_of_ne {m : AverageMeter} {v n : ℚ}
    (hc : m.count + n ≠ 0) :
    m.update v n =
      some
        { val := v
          sum := m.sum + v * n
          count := m.count + n
          avg := (m.sum + v * n) / (m.count + n) } := by
  unfold AverageMeter.update
  simp [hc]

theorem applyUpdates_pos (m : AverageMeter) (us : List (ℚ × ℚ))
    (hm : 0 ≤ m.count) (hc : m.avg = m.sum / m.count)
    (hw : ∀ u ∈ us, 0 < u.2) :
    ∃ m', applyUpdates m us = some m' ∧
      m'.sum = m.sum + (us.map (fun u => u.1 * u.2)).sum ∧
      m'.count = m.count + (us.map Prod.snd).sum ∧
      m'.avg = m'.sum / m'.count ∧ 0 ≤ m'.count := by
  induction us generalizing m with
  | nil =>
    exact ⟨m, rfl, by simp, by simp, hc, hm⟩
  | cons u us ih =>
    have hu : 0 < u.2 := hw u (by simp)
    have hne : m.count + u.2 ≠ 0 := by positivity
    have hstep := update_some_of_ne (m := m) (v := u.1) hne
    set m₁ : AverageMeter :=
      { val := u.1
        sum := m.sum + u.1 * u.2
        count := m.count + u.2
        avg := (m.sum + u.1 * u.2) / (m.count + u.2) } with hm₁
    have hm₁c : 0 ≤ m₁.count := by
      simp only [hm₁]
      positivity
    have hm₁avg : m₁.avg = m₁.sum / m₁.count := rfl
    obtain ⟨m', hrun, hsum, hcount, havg, hpos⟩ :=
      ih m₁ hm₁c hm₁avg (fun u hu => hw u (List.mem_cons_of_mem _ hu))
    refine ⟨m', ?_, ?_, ?_, havg, hpos⟩
    · simp only [applyUpdates, List.foldlM_cons, hstep, Option.bind_eq_bind,
        Option.some_bind]
      exact hrun
    · simp only [hsum, hm₁, List.map_cons, List.sum_cons]
      ring
    · simp only [hcount, hm₁, List.map_cons, List.sum_cons]
      ring

theorem applyUpdates_reach_zero (us : List (ℚ × ℚ)) :
    ∀ m m', (m.count = 0 → m.avg = 0) → applyUpdates m us = some m' →
      (m'.count = 0 → m'.avg = 0) := by
  induction us with
  | nil =>
    intro m m' hm h
    simp only [applyUpdates, List.foldlM_nil] at h
    cases h
    exact hm
  | cons u us ih =>
    intro m m' hm h
    simp only [applyUpdates, List.foldlM_cons, Option.bind_eq_bind] at h
    cases hstep : m.update u.1 u.2 with
    | none => simp [hstep] at h
    | some m₁ =>
      rw [hstep, Option.some_bind] at h
      exact ih m₁ m' (fun hz => absurd hz (update_some_count hstep)) h

/-- Claim C3: on a freshly reset meter a zero-weight `update` does *not*
succeed: `count` stays `0` and the Python division `self.sum / self.count`
raises `ZeroDivisionError`. -/
theorem C3_counterexample :
    AverageMeter.reset.update 5 0 = none := by
  simp [AverageMeter.update, AverageMeter.reset]

/-- Claim C3 (amended): a zero-weight `update` succeeds and leaves the mean
unchanged whenever `count ≠ 0`; on a freshly reset meter (`count = 0`) it
raises `ZeroDivisionError`; and in every state reachable from `reset` by
successful updates, `count = 0` implies `mean = 0`. -/
theorem C3_zero_weight :
    (∀ (m : AverageMeter) (v : ℚ), m.count ≠ 0 → m.avg = m.sum / m.count →
      m.update v 0 = some { val := v, sum := m.sum, count := m.count, avg := m.avg }) ∧
    AverageMeter.reset.update 5 0 = none ∧
    (∀ us m', applyUpdates AverageMeter.reset us = some m' →
      m'.count = 0 → m'.avg = 0) := by
  refine ⟨?_, by simp [AverageMeter.update, AverageMeter.reset], ?_⟩
  · intro m v hc havg
    have hne : m.count + 0 ≠ 0 := by simpa using hc
    rw [update_some_of_ne hne]
    simp [havg]
  · intro us m' h
    exact applyUpdates_reach_zero us AverageMeter.reset m' (fun _ => rfl) h

theorem C3_zero_weight_witness :
    ({ val := 3, sum := 10, count := 2, avg := 5 } : AverageMeter).update 7 0 =
      some { val := 7, sum := 10, count := 2, avg := 5 } :=
  C3_zero_weight.1 { val := 3, sum := 10, count := 2, avg := 5 } 7
    (by norm_num) (by norm_num)

/-- Claim C8: starting from `reset`, any finite sequence of updates with
strictly positive weights succeeds and yields
`sum = Σ vᵢ·wᵢ`, `count = Σ wᵢ` and `mean = (Σ vᵢ·wᵢ) / (Σ wᵢ)`; and
immediately after `reset` the fields `val`, `sum`, `count`, `avg` are all
zero. -/
theorem C8_meter_mean (us : List (ℚ × ℚ)) (hw : ∀ u ∈ us, 0 < u.2) :
    (∃ m', applyUpdates AverageMeter.reset us = some m' ∧
      m'.sum = (us.map (fun u => u.1 * u.2)).sum ∧
      m'.count = (us.map Prod.snd).sum ∧
      m'.avg = (us.map (fun u => u.1 * u.2)).sum / (us.map Prod.snd).sum) ∧
    AverageMeter.reset.val = 0 ∧ AverageMeter.reset.sum = 0 ∧
    AverageMeter.reset.count = 0 ∧ AverageMeter.reset.avg = 0 := by
  refine ⟨?_, rfl, rfl, rfl, rfl⟩
  obtain ⟨m', hrun, hsum, hcount, havg, -⟩ :=
    applyUpdates_pos AverageMeter.reset us le_rfl (by simp [AverageMeter.reset]) hw
  refine ⟨m', hrun, hsum.trans (by simp [AverageMeter.reset]),
    hcount.trans (by simp [AverageMeter.reset]), ?_⟩
  rw [havg, hsum, hcount]
  simp [AverageMeter.reset]

theorem C8_meter_mean_witness :
    (∃ m', applyUpdates AverageMeter.reset [((2 : ℚ), (1 : ℚ)), ((4 : ℚ), (3 : ℚ))] = some m' ∧
      m'.sum = ([((2 : ℚ), (1 : ℚ)), ((4 : ℚ), (3 : ℚ))].map (fun u => u.1 * u.2)).sum ∧
      m'.count = ([((2 : ℚ), (1 : ℚ)), ((4 : ℚ), (3 : ℚ))].map Prod.snd).sum ∧
      m'.avg = ([((2 : ℚ), (1 : ℚ)), ((4 : ℚ), (3 : ℚ))].map (fun u => u.1 * u.2)).sum /
        ([((2 : ℚ), (1 : ℚ)), ((4 : ℚ), (3 : ℚ))].map Prod.snd).sum) ∧
    AverageMeter.reset.val = 0 ∧ AverageMeter.reset.sum = 0 ∧
    AverageMeter.reset.count = 0 ∧ AverageMeter.reset.avg = 0 :=
  C8_meter_mean [((2 : ℚ), (1 : ℚ)), ((4 : ℚ), (3 : ℚ))] (by decide)

/-- Function `adjust_learning_rate` (lines 362-372) as a pure function of
`(base_lr, epoch)`: the rate written identically into every parameter
group.  The Python literals `0.1` and `0.01` are the exact rationals here. -/
def adjust_learning_rate (base_lr : ℚ) (epoch : ℕ) : ℚ :=
  if epoch ≤ 81 then base_lr
  else if epoch ≤ 122 then base_lr * (1 / 10)
  else base_lr * (1 / 100)

/-- Claim C7: the schedule is the fixed three-stage piecewise function —
epochs `[0, 81]` give `base_lr`, epochs `[82, 122]` give `base_lr * 0.1`,
epochs `≥ 123` give `base_lr * 0.01`; in particular
`schedule(0.1, 81) = 0.1`, `schedule(0.1, 82) = 0.01`,
`schedule(0.1, 122) = 0.01`, `schedule(0.1, 123) = 0.001`. -/
theorem C7_lr_schedule :
    (∀ (lr : ℚ) (epoch : ℕ), epoch ≤ 81 → adjust_learning_rate lr epoch = lr) ∧
    (∀ (lr : ℚ) (epoch : ℕ), 82 ≤ epoch → epoch ≤ 122 →
      adjust_learning_rate lr epoch = lr * (1 / 10)) ∧
    (∀ (lr : ℚ) (epoch : ℕ), 123 ≤ epoch →
      adjust_learning_rate lr epoch = lr * (1 / 100)) ∧
    adjust_learning_rate (1 / 10) 81 = 1 / 10 ∧
    adjust_learning_rate (1 / 10) 82 = 1 / 100 ∧
    adjust_learning_rate (1 / 10) 122 = 1 / 100 ∧
    adjust_learning_rate (1 / 10) 123 = 1 / 1000 := by
  refine ⟨?_, ?_, ?_, by norm_num [adjust_learning_rate],
    by norm_num [adjust_learning_rate], by norm_num [adjust_learning_rate],
    by norm_num [adjust_learning_rate]⟩
  · intro lr epoch h
    simp [adjust_learning_rate, h]
  · intro lr epoch h1 h2
    have : ¬ epoch ≤ 81 := by omega
    simp [adjust_learning_rate, this, h2]
  · intro lr epoch h
    have h1 : ¬ epoch ≤ 81 := by omega
    have h2 : ¬ epoch ≤ 122 := by omega
    simp [adjust_learning_rate, h1, h2]

theorem C7_lr_schedule_witness :
    (82 ≤ 100 ∧ 100 ≤ 122) ∧
    adjust_learning_rate (3 / 10) 100 = (3 / 10) * (1 / 10) :=
  ⟨⟨by norm_num, by norm_num⟩,
    C7_lr_schedule.2.1 (3 / 10) 100 (by norm_num) (by norm_num)⟩

/-- One step of the end-of-epoch bookkeeping in `main` (lines 204-206):
`is_best = prec1 > best_prec1` and `best_prec1 = max(prec1, best_prec1)`.
Returns the `is_best` flag and the new best value. -/
def checkpointPhase (best_prec1 prec1 : ℚ) : Bool × ℚ :=
  (decide (best_prec1 < prec1), max prec1 best_prec1)

/-- The sequence of `(is_best, best_prec1)` pairs produced by running the
epoch loop of `main` over a list of per-epoch validation top-1 means. -/
def bestScan (best : ℚ) : List ℚ → List (Bool × ℚ)
  | [] => []
  | p :: ps => checkpointPhase best p :: bestScan (checkpointPhase best p).2 ps

/-- The value of `best_prec1` after the epoch loop of `main` has consumed a
list of per-epoch validation top-1 means. -/
def finalBest (best : ℚ) : List ℚ → ℚ
  | [] => best
  | p :: ps => finalBest (checkpointPhase best p).2 ps

theorem finalBest_mono (ps : List ℚ) : ∀ best : ℚ, best ≤ finalBest best ps := by
  induction ps with
  | nil => intro best; exact le_rfl
  | cons p ps ih =>
    intro best
    refine le_trans ?_ (ih (checkpointPhase best p).2)
    simp [checkpointPhase]

/-- Claim C5: `is_best` holds exactly when the epoch's validation top-1 mean
strictly exceeds the best so far; a tie leaves the flag false and the best
value unchanged; the best value never decreases across the run; and on the
sequence `[70, 65, 72, 72, 80]` (starting from the initial `best_prec1 = 0`)
the `is_best` flags are exactly `[true, false, true, false, true]` and the
final best value is `80`. -/
theorem C5_best_tracking :
    (∀ best p : ℚ, (checkpointPhase best p).1 = true ↔ best < p) ∧
    (∀ best : ℚ, (checkpointPhase best best).1 = false ∧
      (checkpointPhase best best).2 = best) ∧
    (∀ (best : ℚ) (ps : List ℚ), best ≤ finalBest best ps) ∧
    (bestScan 0 [70, 65, 72, 72, 80]).map Prod.fst =
      [true, false, true, false, true] ∧
    finalBest 0 [70, 65, 72, 72, 80] = 80 := by
  refine ⟨?_, ?_, fun best ps => finalBest_mono ps best, ?_, ?_⟩
  · intro best p
    simp [checkpointPhase]
  · intro best
    simp [checkpointPhase]
  · norm_num [bestScan, checkpointPhase, finalBest]
  · norm_num [bestScan, checkpointPhase, finalBest]

/-- The checkpoint record serialized by `torch.save` (`main_cifar.py` lines
208-214 and 128-137): `epoch`, `arch`, `state_dict`, `best_prec1`,
`optimizer`.  The model and optimizer state dicts are opaque blobs, modelled
by natural-number identifiers. -/
structure Checkpoint where
  epoch : ℕ
  arch : String
  state_dict : ℕ
  best_prec1 : ℚ
  optimizer : ℕ
  deriving DecidableEq

/-- The record passed to `save_checkpoint` at the end of epoch index
`completed` (lines 208-214): its `epoch` field is `completed + 1`. -/
def epochCheckpoint (completed : ℕ) (arch : String) (sd : ℕ) (best : ℚ)
    (opt : ℕ) : Checkpoint :=
  { epoch := completed + 1, arch := arch, state_dict := sd,
    best_prec1 := best, optimizer := opt }

/-- The mutable training state touched by the resume block of `main`
(lines 128-139): `args.start_epoch`, the global `best_prec1`, the model
parameters and the optimizer state (both opaque). -/
structure TrainState where
  start_epoch : ℕ
  best_prec1 : ℚ
  state_dict : ℕ
  optimizer : ℕ
  deriving DecidableEq

/-- Loading a checkpoint (lines 131-135): `start_epoch = checkpoint.epoch`,
`best_prec1 = checkpoint.best_prec1`, and the model / optimizer state dicts
are restored from the record. -/
def resumeFromCheckpoint (_st : TrainState) (c : Checkpoint) : TrainState :=
  { start_epoch := c.epoch, best_prec1 := c.best_prec1,
    state_dict := c.state_dict, optimizer := c.optimizer }

/-- The resume block of `main` (lines 128-139) over a file system mapping
paths to checkpoint records: if `args.resume` is empty nothing happens; if
the path exists the state is loaded; otherwise a "no checkpoint found"
diagnostic is printed (second component `true`) and the state is left
untouched. -/
def tryResume (resume : String) (fs : String → Option Checkpoint)
    (st : TrainState) : TrainState × Bool :=
  if resume = "" then (st, false)
  else
    match fs resume with
    | some c => (resumeFromCheckpoint st c, false)
    | none => (st, true)

/-- The epoch indices executed by the loop
`for epoch in range(start_epoch, epochs)` of `main` (line 193). -/
def epochsRun (start_epoch epochs : ℕ) : List ℕ :=
  List.range' start_epoch (epochs - start_epoch)

/-- Claim C6: the checkpoint written at the end of epoch index `e` records
epoch `e + 1`; loading a checkpoint sets `start_epoch` to the recorded
epoch; hence on resume the completed epoch `e` is never re-executed and,
when any epoch remains, the first executed epoch is `e + 1`.  In particular
resuming from a record whose `epoch` field is `40` makes `40` the next
executed epoch (with the default 160 total epochs). -/
theorem C6_resume_semantics :
    (∀ (completed : ℕ) (arch : String) (sd : ℕ) (best : ℚ) (opt : ℕ),
      (epochCheckpoint completed arch sd best opt).epoch = completed + 1) ∧
    (∀ (st : TrainState) (c : Checkpoint),
      (resumeFromCheckpoint st c).start_epoch = c.epoch) ∧
    (∀ completed epochs : ℕ, completed ∉ epochsRun (completed + 1) epochs) ∧
    (∀ completed epochs : ℕ, completed + 1 < epochs →
      (epochsRun (completed + 1) epochs).head? = some (completed + 1)) ∧
    (∀ st : TrainState,
      (resumeFromCheckpoint st
        { epoch := 40, arch := "resnet164_lst_cifar", state_dict := 0,
          best_prec1 := 0, optimizer := 0 }).start_epoch = 40) ∧
    (epochsRun 40 160).head? = some 40 := by
  refine ⟨fun _ _ _ _ _ => rfl, fun _ _ => rfl, ?_, ?_, fun _ => rfl, rfl⟩
  · intro completed epochs
    simp only [epochsRun, List.mem_range']
    omega
  · intro completed epochs h
    have hpos : epochs - (completed + 1) = (epochs - (completed + 1) - 1) + 1 := by
      omega
    rw [epochsRun, hpos, List.range'_succ]
    rfl

theorem C6_resume_semantics_witness :
    (39 + 1 < 160) ∧ (epochsRun (39 + 1) 160).head? = some (39 + 1) :=
  ⟨by norm_num, C6_resume_semantics.2.2.2.1 39 160 (by norm_num)⟩

/-- Claim C9: when a non-empty resume path names no existing checkpoint
file, the resume block logs a diagnostic and leaves the whole training state
(start epoch, best metric, model parameters, optimizer state) exactly as it
was: training proceeds from scratch instead of aborting. -/
theorem C9_missing_resume (resume : String) (fs : String → Option Checkpoint)
    (st : TrainState) (hne : resume ≠ "") (hmiss : fs resume = none) :
    tryResume resume fs st = (st, true) := by
  simp [tryResume, hne, hmiss]

theorem C9_missing_resume_witness :
    tryResume "checkpoint.pth.tar" (fun _ => none)
      { start_epoch := 0, best_prec1 := 0, state_dict := 0, optimizer := 0 } =
      ({ start_epoch := 0, best_prec1 := 0, state_dict := 0, optimizer := 0 }, true) :=
  C9_missing_resume "checkpoint.pth.tar" (fun _ => none)
    { start_epoch := 0, best_prec1 := 0, state_dict := 0, optimizer := 0 }
    (by simp) rfl

/-- The output directory as a file system: file name → contents.  Contents
are opaque serialized records, modelled by natural-number identifiers.
All names are relative to `args.output_dir` (the `os.path.join` prefix of
`save_checkpoint` is fixed). -/
def FS := String → Option ℕ

/-- Operation `torch.save(state, path)`: (over)write one file. -/
def fsWrite (fs : FS) (path : String) (d : ℕ) : FS :=
  fun q => if q = path then some d else fs q

/-- Operation `shutil.copyfile(src, dst)`: raises when `src` does not exist,
otherwise duplicates its contents into `dst`. -/
def copyfile (fs : FS) (src dst : String) : Option FS :=
  match fs src with
  | none => none
  | some d => some (fsWrite fs dst d)

/-- The milestone file name, `'model_must_save_%d.pth.tar' % i`
(lines 333-334). -/
def mustSaveName (i : ℕ) : String :=
  "model_must_save_" ++ toString i ++ ".pth.tar"

/-- The milestone `while True` loop of `save_checkpoint` (lines 331-336), with
explicit fuel.  `i` is the Python loop variable; faithfully to the source,
the assignment `i = 0` sits at the *top of the loop body*, so the incoming
value of `i` is discarded on every iteration and only suffix `0` is ever
tested.  `none` means the fuel ran out, i.e. the Python loop has not
terminated within that many iterations. -/
def mustSaveLoop (fs : FS) (filename : String) : ℕ → ℕ → Option FS
  | _, 0 => none
  | _, fuel + 1 =>
    let i := 0
    if fs (mustSaveName i) = none then copyfile fs filename (mustSaveName i)
    else mustSaveLoop fs filename (i + 1) fuel

/-- Function `save_checkpoint` (lines 325-336): write the `latest` slot, copy it to
`model_best.pth.tar` when `is_best`, and when `must_save` run the milestone
loop.  `none` means the call raised or did not terminate within `fuel`
milestone-loop iterations. -/
def save_checkpoint (fs : FS) (state : ℕ) (is_best : Bool) (filename : String)
    (must_save : Bool) (fuel : ℕ) : Option FS :=
  let fs1 := fsWrite fs filename state
  match (if is_best then copyfile fs1 filename "model_best.pth.tar" else some fs1) with
  | none => none
  | some fs2 => if must_save then mustSaveLoop fs2 filename 0 fuel else some fs2

/-- The empty output directory. -/
def emptyDir : FS := fun _ => none

theorem mustSaveLoop_stuck {fs : FS} {filename : String}
    (h : fs (mustSaveName 0) ≠ none) :
    ∀ fuel i, mustSaveLoop fs filename i fuel = none := by
  intro fuel
  induction fuel with
  | zero => intro i; rfl
  | succ fuel ih =>
    intro i
    simp only [mustSaveLoop, if_neg h]
    exact ih 1

theorem save_checkpoint_best_eq (fs : FS) (d : ℕ) (must_save : Bool) (fuel : ℕ) :
    save_checkpoint fs d true "checkpoint.pth.tar" must_save fuel =
      if must_save then
        mustSaveLoop (fsWrite (fsWrite fs "checkpoint.pth.tar" d) "model_best.pth.tar" d)
          "checkpoint.pth.tar" 0 fuel
      else some (fsWrite (fsWrite fs "checkpoint.pth.tar" d) "model_best.pth.tar" d) := rfl

/-- Claim C1: on an empty output directory the first milestone save creates
the suffix-`0` file, but the *second* milestone save never terminates: the
loop variable is reset to `0` at the top of every iteration, so for every
fuel bound the loop has not finished, and no file with suffix `1` (or `2`)
is ever created.  Three successive milestone saves therefore do not produce
files suffixed `0`, `1`, `2`. -/
theorem C1_milestone_numbering :
    (∀ d fuel : ℕ,
      save_checkpoint emptyDir d false "checkpoint.pth.tar" true (fuel + 1) =
        some (fsWrite (fsWrite emptyDir "checkpoint.pth.tar" d) (mustSaveName 0) d) ∧
      (fsWrite (fsWrite emptyDir "checkpoint.pth.tar" d) (mustSaveName 0) d)
        (mustSaveName 0) = some d) ∧
    (∀ d d' fuel : ℕ,
      save_checkpoint
        (fsWrite (fsWrite emptyDir "checkpoint.pth.tar" d) (mustSaveName 0) d)
        d' false "checkpoint.pth.tar" true fuel = none) := by
  constructor
  · intro d fuel
    exact ⟨rfl, rfl⟩
  · intro d d' fuel
    have h0 : (fsWrite (fsWrite (fsWrite emptyDir "checkpoint.pth.tar" d)
        (mustSaveName 0) d) "checkpoint.pth.tar" d') (mustSaveName 0) = some d := rfl
    exact mustSaveLoop_stuck (fun hc => by rw [h0] at hc; exact Option.noConfusion hc)
      fuel 0

/-- Claim C2: the milestone loop of `save_checkpoint` does *not* terminate
for every directory state: as soon as the suffix-`0` milestone file exists,
the loop (which re-tests only suffix `0` because `i` is reset inside the
loop body) runs forever — for every fuel bound the call has not returned. -/
theorem C2_milestone_nontermination :
    ∀ d d' fuel : ℕ,
      save_checkpoint (fsWrite emptyDir (mustSaveName 0) d) d' false
        "checkpoint.pth.tar" true fuel = none := by
  intro d d' fuel
  have h0 : (fsWrite (fsWrite emptyDir (mustSaveName 0) d) "checkpoint.pth.tar" d')
      (mustSaveName 0) = some d := rfl
  exact mustSaveLoop_stuck (fun hc => by rw [h0] at hc; exact Option.noConfusion hc)
    fuel 0

/-- Claim C10: whenever `save_checkpoint` is called with `is_best = True`
and returns, the `model_best.pth.tar` slot holds exactly the record just
written to the `checkpoint.pth.tar` slot in that same call — the best slot
is produced by `shutil.copyfile` of the just-written latest file. -/
theorem C10_best_copies_latest (fs : FS) (d : ℕ) (must_save : Bool) (fuel : ℕ)
    (fs' : FS)
    (h : save_checkpoint fs d true "checkpoint.pth.tar" must_save fuel = some fs') :
    fs' "model_best.pth.tar" = some d ∧ fs' "checkpoint.pth.tar" = some d := by
  rw [save_checkpoint_best_eq] at h
  cases must_save with
  | false =>
    simp only [Bool.false_eq_true, if_false, Option.some.injEq] at h
    subst h
    exact ⟨rfl, rfl⟩
  | true =>
    simp only [if_true] at h
    by_cases h0 : (fsWrite (fsWrite fs "checkpoint.pth.tar" d) "model_best.pth.tar" d)
        (mustSaveName 0) = none
    · cases fuel with
      | zero => exact Option.noConfusion h
      | succ fuel =>
        simp only [mustSaveLoop, if_pos h0] at h
        rw [show copyfile
            (fsWrite (fsWrite fs "checkpoint.pth.tar" d) "model_best.pth.tar" d)
            "checkpoint.pth.tar" (mustSaveName 0) =
            some (fsWrite (fsWrite (fsWrite fs "checkpoint.pth.tar" d)
              "model_best.pth.tar" d) (mustSaveName 0) d) from rfl,
          Option.some.injEq] at h
        subst h
        exact ⟨rfl, rfl⟩
    · rw [mustSaveLoop_stuck h0 fuel 0] at h
      exact Option.noConfusion h

theorem C10_best_copies_latest_witness :
    (fsWrite (fsWrite emptyDir "checkpoint.pth.tar" 7) "model_best.pth.tar" 7)
      "model_best.pth.tar" = some 7 ∧
    (fsWrite (fsWrite emptyDir "checkpoint.pth.tar" 7) "model_best.pth.tar" 7)
      "checkpoint.pth.tar" = some 7 :=
  C10_best_copies_latest emptyDir 7 false 0
    (fsWrite (fsWrite emptyDir "checkpoint.pth.tar" 7) "model_best.pth.tar" 7) rfl

/-- The index list produced by `output[i].topk(k)` (line 380): the class
indices of row `i` sorted by descending score (`largest=True, sorted=True`;
exact ties keep ascending index order, the stable tie-break of the
underlying sort), truncated to the first `k`. -/
def topkIdx (row : List ℚ) (k : ℕ) : List ℕ :=
  (List.insertionSort (fun i j => row.getD j 0 ≤ row.getD i 0)
    (List.range row.length)).take k

/-- Entry `(r, i)` of `pred.t()` (line 381): the `r`-th of the top-`maxk`
class indices predicted for example `i`. -/
def predAt (output : List (List ℚ)) (maxk i r : ℕ) : ℕ :=
  (topkIdx (output.getD i []) maxk).getD r 0

/-- Expression `correct[:k].view(-1).float().sum(0)` (lines 382-386): the number of
positions in the first `k` rows of the transposed prediction matrix whose
predicted class index equals the example's target. -/
def correctCount (output : List (List ℚ)) (target : List ℕ) (maxk k : ℕ) : ℕ :=
  ∑ r ∈ Finset.range k, ∑ i ∈ Finset.range target.length,
    if predAt output maxk i r = target.getD i 0 then 1 else 0

/-- Function `accuracy` (lines 374-388).  `maxk = max(topk)`; `torch.topk` raises
when `maxk` exceeds the number of classes of some row, `max(topk)` raises on
an empty `topk`, and the `eq`/`expand_as` step requires the batch dimensions
of `output` and `target` to agree — all modelled by `none`.  Each reported
entry is `correct_k * (100 / batch_size)`. -/
def accuracy (output : List (List ℚ)) (target : List ℕ) (topk : List ℕ) :
    Option (List ℚ) :=
  if topk = [] then none
  else
    let maxk := topk.foldl max 0
    if (∀ row ∈ output, maxk ≤ row.length) ∧ output.length = target.length then
      some (topk.map (fun k =>
        (correctCount output target maxk k : ℚ) * (100 / (target.length : ℚ))))
    else none

theorem topkIdx_nodup (row : List ℚ) (k : ℕ) : (topkIdx row k).Nodup :=
  List.Nodup.sublist (List.take_sublist _ _)
    (((List.perm_insertionSort _ _).nodup_iff).mpr (List.nodup_range _))

theorem topkIdx_length (row : List ℚ) (k : ℕ) (h : k ≤ row.length) :
    (topkIdx row k).length = k := by
  simp only [topkIdx, List.length_take, List.length_insertionSort,
    List.length_range]
  omega

theorem topkIdx_take (row : List ℚ) {k maxk : ℕ} (h : k ≤ maxk) :
    (topkIdx row maxk).take k = topkIdx row k := by
  simp only [topkIdx, List.take_take]
  congr 1
  omega

theorem getElem_not_mem_take {l : List ℕ} (hnd : l.Nodup) {n : ℕ}
    (hn : n < l.length) : l[n] ∉ l.take n := by
  intro hmem
  have hsplit := List.take_append_drop n l
  have hnd' : (List.take n l ++ List.drop n l).Nodup := by
    rw [hsplit]; exact hnd
  rw [List.nodup_append] at hnd'
  have hdrop : l[n] ∈ List.drop n l := by
    rw [List.drop_eq_getElem_cons hn]
    exact List.mem_cons_self _ _
  exact hnd'.2.2 hmem hdrop

theorem sum_indicator_take (l : List ℕ) (hnd : l.Nodup) (t : ℕ) :
    ∀ k : ℕ, k ≤ l.length →
      (∑ r ∈ Finset.range k, if l.getD r 0 = t then 1 else 0) =
        if t ∈ l.take k then 1 else 0 := by
  intro k
  induction k with
  | zero => intro _; simp
  | succ k ih =>
    intro hk
    have hk' : k ≤ l.length := by omega
    have hklt : k < l.length := by omega
    have htake : List.take (k + 1) l = List.take k l ++ [l[k]] := by
      rw [List.take_succ, List.getElem?_eq_getElem hklt]
      rfl
    rw [Finset.sum_range_succ, ih hk', List.getD_eq_getElem l 0 hklt, htake]
    by_cases hmem : t ∈ List.take k l
    · have hne : l[k] ≠ t := fun he => getElem_not_mem_take hnd hklt (he ▸ hmem)
      rw [if_pos hmem, if_neg hne, if_pos (List.mem_append_left _ hmem)]
    · by_cases he : l[k] = t
      · rw [if_neg hmem, if_pos he,
          if_pos (List.mem_append_right _ (by simp [he]))]
      · have hno : t ∉ List.take k l ++ [l[k]] := by
          simp only [List.mem_append, List.mem_singleton]
          rintro (h | h)
          · exact hmem h
          · exact he h.symm
        rw [if_neg hmem, if_neg he, if_neg hno]

theorem le_foldl_max (l : List ℕ) :
    ∀ a : ℕ, a ≤ l.foldl max a ∧ ∀ x ∈ l, x ≤ l.foldl max a := by
  induction l with
  | nil => intro a; exact ⟨le_rfl, by simp⟩
  | cons b l ih =>
    intro a
    refine ⟨le_trans (le_max_left a b) (ih (max a b)).1, ?_⟩
    intro x hx
    rcases List.mem_cons.mp hx with h | h
    · subst h
      exact le_trans (le_max_right a x) (ih (max a x)).1
    · exact (ih (max a b)).2 x h

theorem correctCount_eq_card (output : List (List ℚ)) (target : List ℕ)
    (maxk k : ℕ) (hlen : output.length = target.length)
    (hall : ∀ row ∈ output, maxk ≤ row.length) (hk : k ≤ maxk) :
    correctCount output target maxk k =
      ((Finset.range target.length).filter
        (fun i => target.getD i 0 ∈ topkIdx (output.getD i []) k)).card := by
  rw [Finset.card_filter, correctCount, Finset.sum_comm]
  refine Finset.sum_congr rfl ?_
  intro i hi
  have hi' : i < target.length := Finset.mem_range.mp hi
  have hio : i < output.length := by omega
  have hrow : output.getD i [] ∈ output := by
    rw [List.getD_eq_getElem output [] hio]
    exact List.getElem_mem hio
  have hmaxk : maxk ≤ (output.getD i []).length := hall _ hrow
  have hnd := topkIdx_nodup (output.getD i []) maxk
  have hlen2 : (topkIdx (output.getD i []) maxk).length = maxk :=
    topkIdx_length _ _ hmaxk
  simp only [predAt]
  rw [sum_indicator_take (topkIdx (output.getD i []) maxk) hnd
    (target.getD i 0) k (by omega), topkIdx_take _ hk]

theorem accuracy_formula (output : List (List ℚ)) (target : List ℕ)
    (topk : List ℕ) (hne : topk ≠ [])
    (hall : ∀ row ∈ output, topk.foldl max 0 ≤ row.length)
    (hlen : output.length = target.length) :
    accuracy output target topk =
      some (topk.map (fun k =>
        100 * (((Finset.range target.length).filter
          (fun i => target.getD i 0 ∈ topkIdx (output.getD i []) k)).card : ℚ) /
          (target.length : ℚ))) := by
  simp only [accuracy]
  rw [if_neg hne, if_pos ⟨hall, hlen⟩]
  congr 1
  refine List.map_congr_left ?_
  intro k hk
  rw [correctCount_eq_card output target _ k hlen hall
    ((le_foldl_max topk 0).2 k hk)]
  ring

/-- Claim C4: for every `k` in the requested set, `accuracy` reports
`100 * (number of examples whose target is among the k highest-scoring
class indices) / batch_size`; on scores `[[0.1,0.9,0.0],[0.8,0.1,0.1]]`
with targets `[1,0]` it reports `top1 = 100` and, with `5` clamped to the
`3` available classes (`torch.topk` raises for `k = 5 > 3`, last conjunct),
`top3 = 100`; with targets `[0,1]` it reports `top1 = 0`. -/
theorem C4_accuracy :
    (∀ (output : List (List ℚ)) (target : List ℕ) (topk : List ℕ),
      topk ≠ [] → (∀ row ∈ output, topk.foldl max 0 ≤ row.length) →
      output.length = target.length →
      accuracy output target topk =
        some (topk.map (fun k =>
          100 * (((Finset.range target.length).filter
            (fun i => target.getD i 0 ∈ topkIdx (output.getD i []) k)).card : ℚ) /
            (target.length : ℚ)))) ∧
    accuracy [[1 / 10, 9 / 10, 0], [8 / 10, 1 / 10, 1 / 10]] [1, 0] [1, 3] =
      some [100, 100] ∧
    accuracy [[1 / 10, 9 / 10, 0], [8 / 10, 1 / 10, 1 / 10]] [0, 1] [1] =
      some [0] ∧
    accuracy [[1 / 10, 9 / 10, 0], [8 / 10, 1 / 10, 1 / 10]] [1, 0] [1, 5] =
      none := by
  refine ⟨accuracy_formula, ?_, ?_, ?_⟩
  · have cc1 : correctCount [[1 / 10, 9 / 10, 0], [4 / 5, 1 / 10, 1 / 10]]
        [1, 0] 3 1 = 2 := by
      simp only [correctCount, predAt, List.length_cons, List.length_nil,
        Finset.sum_range_succ, Finset.sum_range_zero, List.getD_cons_zero,
        List.getD_cons_succ]
      norm_num [topkIdx, List.insertionSort, List.orderedInsert, List.range_succ]
    have cc3 : correctCount [[1 / 10, 9 / 10, 0], [4 / 5, 1 / 10, 1 / 10]]
        [1, 0] 3 3 = 2 := by
      simp only [correctCount, predAt, List.length_cons, List.length_nil,
        Finset.sum_range_succ, Finset.sum_range_zero, List.getD_cons_zero,
        List.getD_cons_succ]
      norm_num [topkIdx, List.insertionSort, List.orderedInsert, List.range_succ]
    simp only [accuracy, List.foldl]
    norm_num [cc1, cc3]
    exact fun h => List.noConfusion h
  · have cc : correctCount [[1 / 10, 9 / 10, 0], [4 / 5, 1 / 10, 1 / 10]]
        [0, 1] 1 1 = 0 := by
      simp only [correctCount, predAt, List.length_cons, List.length_nil,
        Finset.sum_range_succ, Finset.sum_range_zero, List.getD_cons_zero,
        List.getD_cons_succ]
      norm_num [topkIdx, List.insertionSort, List.orderedInsert, List.range_succ]
    simp only [accuracy, List.foldl]
    norm_num [cc]
  · simp only [accuracy, List.foldl]
    norm_num

theorem C4_accuracy_witness :
    accuracy [[1 / 10, 9 / 10, 0], [8 / 10, 1 / 10, 1 / 10]] [1, 0] [1, 3] =
      some ([1, 3].map (fun k =>
        100 * (((Finset.range ([1, 0] : List ℕ).length).filter
          (fun i => ([1, 0] : List ℕ).getD i 0 ∈
            topkIdx ([[1 / 10, 9 / 10, 0], [8 / 10, 1 / 10, 1 / 10]].getD i []) k)).card : ℚ) /
          ((([1, 0] : List ℕ).length : ℕ) : ℚ))) :=
  C4_accuracy.1 [[1 / 10, 9 / 10, 0], [8 / 10, 1 / 10, 1 / 10]] [1, 0] [1, 3]
    (by simp) (by norm_num [List.foldl]) rfl

end MainCifar
